import Mathlib

/-!
Verification of the substitution engine of a QA counterfactual-augmentation
repository.  The definitions below are a shallow embedding of the Python
sources (`src/classes/answer.py`, `src/classes/qaexample.py`,
`src/substitution_fns.py`, `src/utils.py`).  Python strings are modelled as
`List Char` so that character spans are ordinary indices; Python `None` is
`Option.none`; code that can raise returns `Except`/`Option`.
-/

/-- Python strings, modelled as lists of characters. -/
abbrev Str := List Char

/-- Model of Python `str.lower()` (per-character lowering). -/
def lowerStr (s : Str) : Str := s.map Char.toLower

/-- Predicate `list_starts_with n l`: holds when `n` is an initial segment of `l`
(model of a literal pattern matching at the head of the remaining text). -/
def list_starts_with : List Char → List Char → Bool
  | [], _ => true
  | _ :: _, [] => false
  | a :: n, b :: l => if a = b then list_starts_with n l else false

/-- Scanner behind `re.finditer(re.escape(needle), hay)`: left-to-right,
non-overlapping literal matches, emitting `(start, end)` pairs.  A zero-width
pattern matches at every position (including the end of the string), as in
Python.  `skip` counts characters still covered by the previous match. -/
def scanAux (needle : Str) : Nat → Str → Nat → List (Nat × Nat)
  | 0, [], pos => if needle = [] then [(pos, pos)] else []
  | _ + 1, [], _ => []
  | 0, c :: rest, pos =>
      if needle = [] then (pos, pos) :: scanAux needle 0 rest (pos + 1)
      else if list_starts_with needle (c :: rest) then
        (pos, pos + needle.length) :: scanAux needle (needle.length - 1) rest (pos + 1)
      else scanAux needle 0 rest (pos + 1)
  | skip + 1, _ :: rest, pos => scanAux needle skip rest (pos + 1)

/-- Model of `QAExample._find_answer_in_context`: all `(start, end)` spans of
case-insensitive literal occurrences of `answer_text` in `context`
(`re.finditer(re.escape(answer_text.lower()), context.lower())`). -/
def find_answer_in_context (answer_text context : Str) : List (Nat × Nat) :=
  scanAux (lowerStr answer_text) 0 (lowerStr context) 0

/-- Position `p` is a case-insensitive occurrence of `needle` in `haystack`. -/
def occursCI (needle haystack : Str) (p : Nat) : Prop :=
  p ≤ haystack.length ∧
    ((lowerStr haystack).drop p).take needle.length = lowerStr needle

instance (needle haystack : Str) (p : Nat) : Decidable (occursCI needle haystack p) := by
  unfold occursCI; infer_instance

/-- Worker for Python `str.replace`: replaces every non-overlapping
occurrence of `old` by `new`, left to right, case-sensitively.  A zero-width
`old` inserts `new` at every position, as in Python. -/
def replAux (old new : Str) : Nat → Str → Str
  | 0, [] => if old = [] then new else []
  | _ + 1, [] => []
  | 0, c :: rest =>
      if old = [] then new ++ c :: replAux old new 0 rest
      else if list_starts_with old (c :: rest) then
        new ++ replAux old new (old.length - 1) rest
      else c :: replAux old new 0 rest
  | skip + 1, _ :: rest => replAux old new skip rest

/-- Python `s.replace(old, new)`. -/
def str_replace (s old new : Str) : Str := replAux old new 0 s

/-- Model of the `Answer` value object (`src/classes/answer.py`).  Fields that Python
initialises to `None` are `Option`s; `wikidata_types` is kept as a plain list
(the classifier is only ever called after `update_wikidata_info` sets it). -/
structure Answer where
  text : Str
  spans : Option (List (Nat × Nat))
  ner_label : Option String
  kb_id : Option String
  wikidata_label : Option Str
  aliases : Option (List Str)
  wikidata_types : List String
  wikipedia_page : Option String
  popularity : Option Nat
  answer_type : Option String
deriving DecidableEq

/-- Model of `Answer.is_answer_in_context`: Python truthiness of `self.spans`
(`None` and `[]` are both falsy). -/
def Answer.is_answer_in_context (a : Answer) : Bool :=
  match a.spans with
  | none => false
  | some l => !l.isEmpty

/-- Model of `Answer._select_answer_type`: derives the coarse answer category from the
NER label and the (lowercased) wikidata types; first matching rule wins. -/
def select_answer_type (ner_label : Option String) (wikidata_types : List String) :
    Option String :=
  if ner_label = some "PERSON" then some "PERSON"
  else if ner_label = some "DATE" ∨
      (ner_label = some "CARDINAL" ∧ "year" ∈ wikidata_types) then some "DATE"
  else if ner_label = some "CARDINAL" ∨ ner_label = some "QUANTITY" then some "NUMERIC"
  else if ner_label = some "GPE" ∨ ner_label = some "LOC" then some "LOCATION"
  else if ner_label = some "ORG" then some "ORGANIZATION"
  else none

/-- Model of the `QAExample` object (`src/classes/qaexample.py`).  `original_example`
recursively holds a full example, so the type is an inductive rather than a
structure. -/
inductive QAEx where
  | mk (uid : String) (query : Str) (context : Str) (gold_answers : List Answer)
      (is_substitute : Bool) (metadata : Option (List (String × String)))
      (original_example : Option QAEx) : QAEx

def QAEx.uid : QAEx → String
  | .mk u _ _ _ _ _ _ => u

def QAEx.query : QAEx → Str
  | .mk _ q _ _ _ _ _ => q

def QAEx.context : QAEx → Str
  | .mk _ _ c _ _ _ _ => c

def QAEx.gold_answers : QAEx → List Answer
  | .mk _ _ _ g _ _ _ => g

def QAEx.is_substitute : QAEx → Bool
  | .mk _ _ _ _ s _ _ => s

def QAEx.metadata : QAEx → Option (List (String × String))
  | .mk _ _ _ _ _ m _ => m

def QAEx.original_example : QAEx → Option QAEx
  | .mk _ _ _ _ _ _ o => o

/-- Declared failure kinds of the substitution engine.  `noAnswerInContext`
models the `IndexError` raised by `[a for a in self.gold_answers if
a.is_answer_in_context()][0]` when no gold answer is confirmed present. -/
inductive SubError where
  | noAnswerInContext
  | attributeError
deriving DecidableEq

/-- Model of `QAExample.update_context_with_substitution`.  The source first evaluates
`replace_answers` — when `replace_every_original_answer` is false this indexes
the first in-context gold answer and raises if there is none — and then,
regardless of `replace_answers` (the variable is never read again), collects
the occurrences of EVERY gold answer's text, dedups the matched substrings
and string-replaces each of them by `sub_answer.text`.  Python's `set`
iteration order is unspecified; we dedup keeping first occurrences. -/
def update_context_with_substitution (gold_answers : List Answer) (context : Str)
    (sub_text : Str) (replace_every_original_answer : Bool) : Except SubError Str :=
  if replace_every_original_answer = false ∧
      (gold_answers.filter (fun a => a.is_answer_in_context)).isEmpty = true then
    .error .noAnswerInContext
  else
    let replace_spans :=
      gold_answers.flatMap (fun a => find_answer_in_context a.text context)
    let replace_strs :=
      (replace_spans.map (fun se => (context.drop se.1).take (se.2 - se.1))).eraseDups
    .ok (replace_strs.foldl (fun ctx rs => str_replace ctx rs sub_text) context)

/-- Model of `QAExample.apply_substitution`, as a transition on the mutated object:
returns the object after the call together with the error, if one was raised.
The uid is rewritten first; on failure of the context update the object has
only its uid mutated (the Python exception propagates at that point).  The
recomputed `spans` of the new answer are bound to a local variable the source
never writes back, so the stored `sub_answer` keeps `spans = None`. -/
def apply_substitution_self (self : QAEx) (sub_answer : Answer)
    (original_example : QAEx) (sub_type : String) (replace_every : Bool) :
    QAEx × Option SubError :=
  match self with
  | .mk uid query context gold is_sub md orig =>
    let uid' := sub_type ++ "_" ++ uid
    match update_context_with_substitution gold context sub_answer.text replace_every with
    | .error e => (.mk uid' query context gold is_sub md orig, some e)
    | .ok ctx' =>
      let _spans := find_answer_in_context sub_answer.text ctx'
      (.mk uid' query ctx' [sub_answer] true md (some original_example), none)

/-- The method `apply_substitution` as a fallible function producing the
substituted example. -/
def apply_substitution (self : QAEx) (sub_answer : Answer) (original_example : QAEx)
    (sub_type : String) (replace_every : Bool) : Except SubError QAEx :=
  match apply_substitution_self self sub_answer original_example sub_type replace_every with
  | (v, none) => .ok v
  | (_, some e) => .error e

/-- Model of `substitution_fns.create_new_example`: deep-copy the original (a value
copy in this embedding), build the substitute `Answer` with `spans=None`, and
apply the substitution to the copy, passing the original itself as
back-reference. -/
def create_new_example (ex : QAEx) (new_id : String) (answer_text : Str)
    (ner_label : Option String) (kb_id : Option String) (wikidata_label : Option Str)
    (aliases : Option (List Str)) (wikidata_types : List String)
    (wikipedia_page : Option String) (popularity : Option Nat)
    (answer_type : Option String) (replace_every_original_answer : Bool) :
    Except SubError QAEx :=
  let sub_ex := ex
  let sub_answer : Answer :=
    ⟨answer_text, none, ner_label, kb_id, wikidata_label, aliases, wikidata_types,
      wikipedia_page, popularity, answer_type⟩
  apply_substitution sub_ex sub_answer ex new_id replace_every_original_answer

/-- The non-falsy answer types of the gold answers, in order
(`[answer.answer_type for answer in self.gold_answers if answer.answer_type]`;
Python truthiness also drops an empty string). -/
def answer_type_list (gold : List Answer) : List String :=
  gold.filterMap (fun a =>
    match a.answer_type with
    | some t => if t = "" then none else some t
    | none => none)

/-- Update step of the maximal-multiplicity fold behind
`Counter(l).most_common(1)`. -/
def fmcStep (l : List String) : Option String → String → Option String :=
  fun best t =>
    match best with
    | none => some t
    | some b => if l.count b < l.count t then some t else some b

/-- Head of `Counter(l).most_common(1)`, as a fold: the running best is
replaced only by a strictly more frequent value, so the first value (in
occurrence order) attaining the maximal multiplicity wins. -/
def first_most_common (l : List String) : Option String :=
  l.foldl (fmcStep l) none

/-- Model of `QAExample.get_example_answer_type`. -/
def get_example_answer_type (ex : QAEx) : Option String :=
  first_most_common (answer_type_list ex.gold_answers)

/-- The ASCII punctuation set `string.punctuation` (braces, backtick and the
apostrophe written via their code points). -/
def punctChars : List Char :=
  ['!', '"', '#', '$', '%', '&', Char.ofNat 39, '(', ')', '*', '+', ',', '-', '.',
   '/', ':', ';', '<', '=', '>', '?', '@', '[', '\\', ']', '^', '_', Char.ofNat 96,
   Char.ofNat 123, '|', Char.ofNat 125, '~']

/-- Word characters for the regex `\b` boundary (`\w`: alphanumerics and
underscore). -/
def isWordChar (c : Char) : Bool := c.isAlphanum || c = '_'

/-- Flush one maximal word-character run for `remove_articles`: a run equal to
`a`, `an` or `the` is rewritten to a single space (the regex
`re.sub(r"\b(a|an|the)\b", " ", text)` matches exactly the complete runs equal
to an article). -/
def flushRun (run : Str) : Str :=
  if run = ['a'] ∨ run = ['a', 'n'] ∨ run = ['t', 'h', 'e'] then [' '] else run

/-- Accumulator-based scan behind `remove_articles`; `acc` is the current
word-character run. -/
def remArtAux (acc : Str) : Str → Str
  | [] => flushRun acc
  | c :: rest =>
      if isWordChar c then remArtAux (acc ++ [c]) rest
      else flushRun acc ++ c :: remArtAux [] rest

/-- The `remove_articles` step of `utils.normalize_text`. -/
def remove_articles (s : Str) : Str := remArtAux [] s

/-- The `remove_punc` step of `utils.normalize_text`. -/
def remove_punc (s : Str) : Str := s.filter (fun c => !punctChars.contains c)

/-- Model of `text.split()`: split on whitespace runs, dropping empty tokens. -/
def splitWsAux (acc : Str) : Str → List Str
  | [] => if acc = [] then [] else [acc]
  | c :: rest =>
      if c.isWhitespace then
        if acc = [] then splitWsAux [] rest else acc :: splitWsAux [] rest
      else splitWsAux (acc ++ [c]) rest

/-- The `white_space_fix` step of `utils.normalize_text`:
`" ".join(text.split())`. -/
def white_space_fix (s : Str) : Str := List.intercalate [' '] (splitWsAux [] s)

/-- Model of `utils.normalize_text`: lower, strip punctuation, strip articles, fix
whitespace. -/
def normalize_text (s : Str) : Str :=
  white_space_fix (remove_articles (remove_punc (lowerStr s)))

/-- The `while` loop of `select_random_non_identical_answer`, driven by an
explicit stream of random indices (`picks` models successive outcomes of
`random.choice`).  The loop keeps redrawing while the drawn key is falsy
(empty) or its normalization collides with a gold answer's; `none` means the
stream was exhausted with the loop still running — the source has no other
exit. -/
def select_loop (norm_gold : List Str) (sample_keys : List Str) :
    List Nat → Option Str
  | [] => none
  | i :: rest =>
    let k := sample_keys.getD (i % sample_keys.length) []
    if k = [] ∨ normalize_text k ∈ norm_gold then select_loop norm_gold sample_keys rest
    else some k

/-- Model of `substitution_fns.select_random_non_identical_answer`, with the random
draws made explicit.  `sample_set` is the answer-corpus dict as an association
list in insertion order. -/
def select_random_non_identical_answer (gold : List Answer)
    (sample_set : List (Str × Answer)) (picks : List Nat) : Option Answer :=
  let norm_gold := gold.map (fun ga => normalize_text ga.text)
  match select_loop norm_gold (sample_set.map (·.1)) picks with
  | none => none
  | some k => ((sample_set.filter (fun kv => kv.1 = k)).getLast?).map (·.2)

/-- Insert into a Python dict modelled as an association list: an existing key
keeps its position and gets the new value, a new key is appended. -/
def dict_insert (d : List (Str × Answer)) (k : Str) (v : Answer) :
    List (Str × Answer) :=
  if d.any (fun kv => kv.1 = k) then
    d.map (fun kv => if kv.1 = k then (k, v) else kv)
  else d ++ [(k, v)]

/-- The truthy alias list of an answer (`if ga.aliases` skips `None` and
`[]`, which coincide on the empty list). -/
def truthy_aliases (a : Answer) : List Str :=
  match a.aliases with
  | none => []
  | some l => l

/-- The dict `alias_to_info = {alias: ga for ga in ex.gold_answers if
ga.aliases for alias in ga.aliases}`. -/
def alias_to_info (gold : List Answer) : List (Str × Answer) :=
  gold.foldl (fun d ga => (truthy_aliases ga).foldl (fun d al => dict_insert d al ga) d) []

/-- A placeholder for the unreachable `KeyError` branch of
`alias_to_info[alias]` (every looked-up alias is a dict key). -/
def dummyAnswer : Answer := ⟨[], none, none, none, none, none, [], none, none, none⟩

/-- The inner `sub_fn` of `alias_substitution_fn`: one derived example per
valid alias.  `valid_aliases` is `list(set(alias_to_info) -
set(gold_answer_texts))`; Python's set order is unspecified, we keep the
first-insertion order (the claims below depend only on the count). -/
def alias_sub_fn (ex : QAEx) (replace_every : Bool) : Except SubError (List QAEx) :=
  let gold_answer_texts := ex.gold_answers.map (·.text)
  let info := alias_to_info ex.gold_answers
  let valid_aliases := (info.map (·.1)).filter (fun al => al ∉ gold_answer_texts)
  valid_aliases.enum.mapM (fun ia =>
    let ga := (((info.filter (fun kv => kv.1 = ia.2)).getLast?).map (·.2)).getD dummyAnswer
    create_new_example ex ("alias-sub-" ++ toString ia.1) ia.2 ga.ner_label ga.kb_id
      ga.wikidata_label (some [ga.text]) ga.wikidata_types ga.wikipedia_page
      ga.popularity ga.answer_type replace_every)

/-- The category test of `alias_substitution_fn`, with Python's short-circuit
evaluation.  The second disjunct compares the literal `category` string — not
the example's answer type — against `[None, "DATE", "NUMERIC"]` (a `str` never
equals `None`).  The third disjunct calls `.lower()` on the example's answer
type and raises `AttributeError` when that is `None`. -/
def alias_category_condition (category : String) (ex_answer_type : Option String) :
    Except SubError Bool :=
  if lowerStr category.toList = "all".toList then .ok true
  else if lowerStr category.toList = "nonnumeric".toList ∧
      category ∉ (["DATE", "NUMERIC"] : List String) then .ok true
  else
    match ex_answer_type with
    | none => .error .attributeError
    | some t => .ok (lowerStr category.toList = lowerStr t.toList)

/-- Model of `alias_substitution_fn` over the examples of a dataset (prints and the
alias-count histogram dropped).  `max_aliases = 0` is falsy in Python, so no
truncation happens then. -/
def alias_substitution_fn (examples : List QAEx) (replace_every : Bool)
    (max_aliases : Nat) (category : String) : Except SubError (List QAEx) := do
  let mut_new_exs ← examples.foldlM (fun acc ex => do
    let cond ← alias_category_condition category (get_example_answer_type ex)
    if cond then
      let alias_exs ← alias_sub_fn ex replace_every
      let alias_exs := if max_aliases ≠ 0 then alias_exs.take max_aliases else alias_exs
      pure (acc ++ alias_exs)
    else
      pure acc) []
  pure mut_new_exs

/-- One record of the wikidata entity-info store
(`extract_wikidata_info.py` output, as consumed by the popularity binner). -/
structure EntityInfo where
  label : Str
  aliases : List Str
  entity_types : List String
  wikipedia_page : Option String
  popularity : Nat
deriving DecidableEq

/-- The per-popularity cap of `bin_wikidata_entities_by_popularity`: keep only
the first `max_ents_per_pop` entities of each popularity value, in iteration
order (the source increments the seen-counter whether or not it deletes). -/
def cap_per_pop (max_ents_per_pop : Nat) (seen : Nat → Nat) :
    List (String × EntityInfo) → List (String × EntityInfo)
  | [] => []
  | kv :: rest =>
    let p := kv.2.popularity
    let seen' := fun q => if q = p then seen p + 1 else seen q
    if max_ents_per_pop ≤ seen p then cap_per_pop max_ents_per_pop seen' rest
    else kv :: cap_per_pop max_ents_per_pop seen' rest

/-- The entities surviving the `Q5` filter and the per-popularity cap. -/
def surviving_entities (store : List (String × EntityInfo)) (max_ents_per_pop : Nat) :
    List (String × EntityInfo) :=
  cap_per_pop max_ents_per_pop (fun _ => 0)
    (store.filter (fun kv => "Q5" ∈ kv.2.entity_types))

/-- Ordering of entities by popularity (the `sorted` key). -/
def popLe (a b : String × EntityInfo) : Prop := a.2.popularity ≤ b.2.popularity

instance : DecidableRel popLe := fun a b => by unfold popLe; infer_instance

instance : IsTotal (String × EntityInfo) popLe :=
  ⟨fun a b => Nat.le_total a.2.popularity b.2.popularity⟩

instance : IsTrans (String × EntityInfo) popLe :=
  ⟨fun _ _ _ h h' => Nat.le_trans h h'⟩

/-- Contiguous chunks of size `s` (the slices `kb_ids[i : i + bin_size]` for
`i in range(0, len, bin_size)`).  `fuel` bounds the recursion; it is
instantiated with the list length, which suffices whenever `1 ≤ s`. -/
def chunkAux (s : Nat) : Nat → List α → List (List α)
  | _, [] => []
  | 0, l => [l]
  | fuel + 1, l => l.take s :: chunkAux s fuel (l.drop s)

/-- Split a list into contiguous chunks of size `s`. -/
def chunkList (s : Nat) (l : List α) : List (List α) := chunkAux s l.length l

/-- Model of `substitution_fns.bin_wikidata_entities_by_popularity`, starting from the
loaded store (the gzip/json read is outside the core).  Python's `sorted` is a
stable sort by the popularity key; insertion sort by a total preorder computes
the same list.  Each bin is the dict of its chunk's entities, modelled as an
association list in key order. -/
def bin_wikidata_entities_by_popularity (store : List (String × EntityInfo))
    (num_bins : Nat) (max_ents_per_pop : Nat) : List (List (String × EntityInfo)) :=
  let survivors := surviving_entities store max_ents_per_pop
  let kb_ids := List.insertionSort popLe survivors
  let bin_size := kb_ids.length / num_bins + 1
  chunkList bin_size kb_ids

/-- A heap of `QAExample` objects: references are `Nat`s, `next` is the next
fresh reference.  Used to state that substitution never writes through the
original's reference. -/
structure HeapState where
  heap : Nat → QAEx
  next : Nat

/-- Model of `copy.deepcopy(ex)`: allocate a fresh object carrying the same value
(the example's value graph is a tree, so the deep copy is the value itself at
a fresh reference).  Returns the new state and the new reference. -/
def alloc_copy (st : HeapState) (r : Nat) : HeapState × Nat :=
  (⟨fun i => if i = st.next then st.heap r else st.heap i, st.next + 1⟩, st.next)

/-- The function `create_new_example` on the heap: deep-copy the original at `r`, run the
mutating `apply_substitution` against the copy, write the mutated object back
to the fresh reference, and return its reference (or the raised error). -/
def create_new_example_heap (st : HeapState) (r : Nat) (new_id : String)
    (answer_text : Str) (ner_label : Option String) (kb_id : Option String)
    (wikidata_label : Option Str) (aliases : Option (List Str))
    (wikidata_types : List String) (wikipedia_page : Option String)
    (popularity : Option Nat) (answer_type : Option String)
    (replace_every_original_answer : Bool) : HeapState × Except SubError Nat :=
  let ac := alloc_copy st r
  let st1 := ac.1
  let r' := ac.2
  let sub_answer : Answer :=
    ⟨answer_text, none, ner_label, kb_id, wikidata_label, aliases, wikidata_types,
      wikipedia_page, popularity, answer_type⟩
  let ve := apply_substitution_self (st1.heap r') sub_answer (st.heap r) new_id
    replace_every_original_answer
  let st2 : HeapState := ⟨fun i => if i = r' then ve.1 else st1.heap i, st1.next⟩
  (st2, match ve.2 with
        | none => .ok r'
        | some e => .error e)

/-- A gold answer "Alice" confirmed present in the context below. -/
def aliceAnswer : Answer :=
  ⟨"Alice".toList, some [(0, 5)], some "PERSON", none, none, none, [], none, none,
    some "PERSON"⟩

/-- A second gold answer "Bob", also present in the context below. -/
def bobAnswer : Answer :=
  ⟨"Bob".toList, some [(10, 13)], some "PERSON", none, none, none, [], none, none,
    some "PERSON"⟩

/-- The gold answer of the spec's alias example: "Barack Obama" with alias
"Obama". -/
def obamaAnswer : Answer :=
  ⟨"Barack Obama".toList, some [(0, 12)], some "PERSON", some "Q76",
    some "Barack Obama".toList, some ["Obama".toList], ["human"], none, some 1000,
    some "PERSON"⟩

/-- The spec's alias-substitution example. -/
def obamaEx : QAEx :=
  .mk "ex1" "Who was the 44th President?".toList
    "Barack Obama was the 44th President.".toList [obamaAnswer] false none none

/-- A DATE-typed gold answer carrying an alias. -/
def dateAnswer : Answer :=
  ⟨"2020".toList, some [(7, 11)], some "DATE", some "Q25337",
    some "2020".toList, some ["MMXX".toList], ["year"], none, some 5, some "DATE"⟩

/-- An original example whose answer type is DATE. -/
def dateEx : QAEx :=
  .mk "d1" "When was it?".toList "It was 2020.".toList [dateAnswer] false none none

/-- An entity-info record with the human type and the given popularity. -/
def humanEnt (pop : Nat) : EntityInfo := ⟨[], [], ["Q5"], none, pop⟩

/-- A store of four human entities with distinct popularities. -/
def store4 : List (String × EntityInfo) :=
  [("Q1", humanEnt 1), ("Q2", humanEnt 2), ("Q3", humanEnt 3), ("Q4", humanEnt 4)]

/-- A one-object heap holding the alias example at reference 0. -/
def heapA : HeapState := ⟨fun _ => obamaEx, 1⟩

/-! ## Theorems -/

/-- C1.  With `replace_every = false` and two gold answers both present in
the passage, the code replaces the surface forms of BOTH answers, not only
those of the first confirmed-present one: "Alice met Bob." becomes
"Carol met Carol.", whereas the claim predicts "Carol met Bob.".  The
`replace_answers` selection in the source is dead code — the replacement loop
iterates over `self.gold_answers`. -/
theorem update_context_replaces_every_gold_answer :
    update_context_with_substitution [aliceAnswer, bobAnswer]
        ("Alice met Bob.".toList) ("Carol".toList) false =
      .ok ("Carol met Carol.".toList)
    ∧ update_context_with_substitution [aliceAnswer, bobAnswer]
        ("Alice met Bob.".toList) ("Carol".toList) false ≠
      .ok ("Carol met Bob.".toList) := by
  refine ⟨rfl, fun h => ?_⟩
  have h2 : ("Carol met Carol.".toList : Str) = "Carol met Bob.".toList := by
    have h1 : (Except.ok ("Carol met Carol.".toList) :
        Except SubError Str) = .ok ("Carol met Bob.".toList) := h
    exact Except.ok.inj h1
  exact absurd h2 (by decide)

/-- C2.  On the spec's alias example, `create_new_example` produces the
expected uid and rewritten context, but the derived gold answer's `spans`
field is `None`: the spans recomputed inside `apply_substitution` are bound
to a local variable that is never written back, even though locating the
substitute text in the new context yields `[(0, 5)]`. -/
theorem create_new_example_spans_not_recomputed :
    ∃ ex', create_new_example obamaEx "alias-sub-0" ("Obama".toList)
        (some "PERSON") (some "Q76") (some ("Barack Obama".toList))
        (some ["Barack Obama".toList]) ["human"] none (some 1000)
        (some "PERSON") false = .ok ex'
      ∧ ex'.uid = "alias-sub-0_ex1"
      ∧ ex'.context = "Obama was the 44th President.".toList
      ∧ ex'.gold_answers.map Answer.spans = [none]
      ∧ find_answer_in_context ("Obama".toList) ex'.context = [(0, 5)] := by
  refine ⟨_, rfl, rfl, rfl, rfl, rfl⟩

/-- C3.  With `replace_every = false`, the context update fails with the
declared `NoAnswerInContext` error exactly when no gold answer is confirmed
present; when some gold answer is present it succeeds with a rewritten
context. -/
theorem update_context_no_answer_in_context (gold : List Answer)
    (context sub_text : Str) :
    ((∀ a ∈ gold, a.is_answer_in_context = false) →
      update_context_with_substitution gold context sub_text false =
        .error .noAnswerInContext)
    ∧ ((∃ a ∈ gold, a.is_answer_in_context = true) →
      ∃ c, update_context_with_substitution gold context sub_text false = .ok c) := by
  constructor
  · intro h
    have hfil : gold.filter (fun a => a.is_answer_in_context) = [] := by
      rw [List.filter_eq_nil_iff]
      intro a ha
      simp [h a ha]
    unfold update_context_with_substitution
    rw [if_pos ⟨rfl, by rw [hfil]; rfl⟩]
  · rintro ⟨a, ha, hin⟩
    have hfil : gold.filter (fun a => a.is_answer_in_context) ≠ [] := by
      intro hf
      rw [List.filter_eq_nil_iff] at hf
      exact hf a ha hin
    unfold update_context_with_substitution
    rw [if_neg]
    · exact ⟨_, rfl⟩
    · rintro ⟨-, hemp⟩
      exact hfil (List.isEmpty_iff.mp hemp)

/-- Witness for C3: a gold answer with empty spans triggers the declared
failure. -/
theorem update_context_no_answer_in_context_witness :
    update_context_with_substitution [dummyAnswer] ['c'] ['s'] false =
      .error .noAnswerInContext :=
  (update_context_no_answer_in_context [dummyAnswer] ['c'] ['s']).1 (by decide)

/-- C9.  Running `create_new_example` against the heap mutates only the
freshly allocated copy: every previously allocated reference — in particular
the original example's — still holds exactly the value it held before the
call, whatever the substitution arguments are. -/
theorem create_new_example_heap_preserves_original (st : HeapState) (r : Nat)
    (new_id : String) (answer_text : Str) (ner_label kb_id : Option String)
    (wikidata_label : Option Str) (aliases : Option (List Str))
    (wikidata_types : List String) (wikipedia_page : Option String)
    (popularity : Option Nat) (answer_type : Option String)
    (replace_every : Bool) (hr : r < st.next) :
    (∀ i, i ≠ st.next →
      (create_new_example_heap st r new_id answer_text ner_label kb_id
          wikidata_label aliases wikidata_types wikipedia_page popularity
          answer_type replace_every).1.heap i = st.heap i)
    ∧ (create_new_example_heap st r new_id answer_text ner_label kb_id
          wikidata_label aliases wikidata_types wikipedia_page popularity
          answer_type replace_every).1.heap r = st.heap r := by
  have key : ∀ i, i ≠ st.next →
      (create_new_example_heap st r new_id answer_text ner_label kb_id
          wikidata_label aliases wikidata_types wikipedia_page popularity
          answer_type replace_every).1.heap i = st.heap i := by
    intro i hi
    show (if i = st.next then _ else if i = st.next then _ else st.heap i) = st.heap i
    rw [if_neg hi, if_neg hi]
  exact ⟨key, key r (Nat.ne_of_lt hr)⟩

/-- Witness for C9: with the alias example at reference 0 and next fresh
reference 1, the original cell is untouched by the substitution call. -/
theorem create_new_example_heap_preserves_original_witness :
    (create_new_example_heap heapA 0 "alias-sub-0" ("Obama".toList)
        (some "PERSON") (some "Q76") (some ("Barack Obama".toList))
        (some ["Obama".toList]) ["human"] none (some 1000) (some "PERSON")
        false).1.heap 0 = heapA.heap 0 :=
  (create_new_example_heap_preserves_original heapA 0 "alias-sub-0"
    ("Obama".toList) (some "PERSON") (some "Q76") (some ("Barack Obama".toList))
    (some ["Obama".toList]) ["human"] none (some 1000) (some "PERSON")
    false (by decide)).2

/-- C5.  The NONNUMERIC category filter of `alias_substitution_fn` is
vacuous: the source compares the literal `category` string — not the
example's answer type — against `[None, "DATE", "NUMERIC"]`, so a DATE-typed
example (and even one with an absent type) passes the filter, and the
DATE-typed example here yields a derived alias example although the claim
says it must yield none. -/
theorem alias_substitution_nonnumeric_filter_vacuous :
    (∃ l, alias_substitution_fn [dateEx] false 1 "NONNUMERIC" = .ok l
      ∧ l.length = 1)
    ∧ alias_category_condition "NONNUMERIC" (some "DATE") = .ok true
    ∧ alias_category_condition "NONNUMERIC" none = .ok true := by
  refine ⟨?_, ?_, ?_⟩
  · exact ⟨_, rfl, rfl⟩
  · rfl
  · rfl

/-- Helper for C4: if every key of the pool is falsy or normalizes into the
gold set, every finite stream of random draws leaves the rejection loop still
running (the source's `while` loop has no other exit, so it never
terminates). -/
theorem select_loop_all_rejected_none (norm_gold : List Str) (keys : List Str)
    (h : ∀ k ∈ keys, k = [] ∨ normalize_text k ∈ norm_gold) :
    ∀ picks, select_loop norm_gold keys picks = none := by
  intro picks
  induction picks with
  | nil => rfl
  | cons i rest ih =>
    have hk : keys.getD (i % keys.length) [] = [] ∨
        normalize_text (keys.getD (i % keys.length) []) ∈ norm_gold := by
      cases hkeys : keys with
      | nil => left; simp [List.getD]
      | cons a as =>
        apply h
        rw [← hkeys]
        have hlt : i % keys.length < keys.length := by
          apply Nat.mod_lt
          rw [hkeys]
          exact Nat.succ_pos _
        rw [List.getD_eq_getElem _ _ hlt]
        exact List.getElem_mem hlt
    simp only [select_loop]
    rw [if_pos hk]
    exact ih

/-- C4.  When every candidate in the pool has a normalized text colliding
with some gold answer's normalized text, `select_random_non_identical_answer`
never returns, for every finite stream of random draws: the rejection
sampling is an infinite loop, not the declared `NoValidCandidate` failure. -/
theorem select_random_non_identical_answer_diverges (gold : List Answer)
    (sample_set : List (Str × Answer))
    (h : ∀ kv ∈ sample_set, kv.1 = [] ∨
      normalize_text kv.1 ∈ gold.map (fun ga => normalize_text ga.text)) :
    ∀ picks, select_random_non_identical_answer gold sample_set picks = none := by
  have hkeys : ∀ k ∈ sample_set.map (fun kv => kv.1), k = [] ∨
      normalize_text k ∈ gold.map (fun ga => normalize_text ga.text) := by
    intro k hk
    obtain ⟨kv, hkv, hfst⟩ := List.mem_map.mp hk
    rw [← hfst]
    exact h kv hkv
  intro picks
  have hsl := select_loop_all_rejected_none _ _ hkeys picks
  simp only [select_random_non_identical_answer, hsl]

/-- A gold answer whose text is the single letter x. -/
def xAnswer : Answer := ⟨['x'], none, none, none, none, none, [], none, none, none⟩

/-- Witness for C4: a pool whose only key normalizes to the gold answer's
normalized text is rejected forever. -/
theorem select_random_non_identical_answer_diverges_witness :
    select_random_non_identical_answer [xAnswer] [(['x'], xAnswer)] [0, 1, 2] = none :=
  select_random_non_identical_answer_diverges [xAnswer] [(['x'], xAnswer)]
    (by decide) [0, 1, 2]

/-- C8 counterexample.  With four surviving entities and `num_bins = 4` the
chunk size is `4 / 4 + 1 = 2`, so the binner returns 2 bins, not
`num_bins = 4`. -/
theorem bin_popularity_bin_count_counterexample :
    ¬ (bin_wikidata_entities_by_popularity store4 4 10).length = 4 := by
  intro h
  have h2 : (bin_wikidata_entities_by_popularity store4 4 10).length = 2 := rfl
  rw [h2] at h
  exact absurd h (by decide)

/-- C6.  The answer-type classifier implements exactly the ordered
first-match rule list — PERSON, DATE (including CARDINAL-with-year), NUMERIC,
LOCATION, ORGANIZATION, otherwise absent — and is a pure function. -/
theorem select_answer_type_rules (w : List String) :
    select_answer_type (some "PERSON") w = some "PERSON"
    ∧ select_answer_type (some "DATE") w = some "DATE"
    ∧ ("year" ∈ w → select_answer_type (some "CARDINAL") w = some "DATE")
    ∧ ("year" ∉ w → select_answer_type (some "CARDINAL") w = some "NUMERIC")
    ∧ select_answer_type (some "QUANTITY") w = some "NUMERIC"
    ∧ select_answer_type (some "GPE") w = some "LOCATION"
    ∧ select_answer_type (some "LOC") w = some "LOCATION"
    ∧ select_answer_type (some "ORG") w = some "ORGANIZATION"
    ∧ (∀ n : Option String,
        n ∉ ([some "PERSON", some "DATE", some "CARDINAL", some "QUANTITY",
              some "GPE", some "LOC", some "ORG"] : List (Option String)) →
        select_answer_type n w = none)
    ∧ (∀ (n : Option String) (w' : List String),
        select_answer_type n w' = select_answer_type n w') := by
  refine ⟨rfl, rfl, ?_, ?_, rfl, rfl, rfl, rfl, ?_, fun n w' => rfl⟩
  · intro hy
    unfold select_answer_type
    rw [if_neg (by decide), if_pos (Or.inr ⟨rfl, hy⟩)]
  · intro hy
    unfold select_answer_type
    rw [if_neg (by decide), if_neg ?_, if_pos (Or.inl rfl)]
    rintro (hd | ⟨-, hw⟩)
    · exact absurd hd (by decide)
    · exact hy hw
  · intro n hn
    simp only [List.mem_cons, List.not_mem_nil, or_false, not_or] at hn
    obtain ⟨h1, h2, h3, h4, h5, h6, h7⟩ := hn
    unfold select_answer_type
    rw [if_neg h1, if_neg ?_, if_neg ?_, if_neg ?_, if_neg h7]
    · rintro (hd | hd)
      · exact h5 hd
      · exact h6 hd
    · rintro (hd | hd)
      · exact h3 hd
      · exact h4 hd
    · rintro (hd | ⟨hd, -⟩)
      · exact h2 hd
      · exact h3 hd

/-- Witness for C6: the classifier at concrete inputs, discharging the
conditional rules. -/
theorem select_answer_type_rules_witness :
    select_answer_type (some "CARDINAL") ["year"] = some "DATE"
    ∧ select_answer_type (some "CARDINAL") ["city"] = some "NUMERIC"
    ∧ select_answer_type (some "MISC") ["year"] = none :=
  ⟨(select_answer_type_rules ["year"]).2.2.1 (by decide),
   (select_answer_type_rules ["city"]).2.2.2.1 (by decide),
   (select_answer_type_rules ["year"]).2.2.2.2.2.2.2.2.1 (some "MISC") (by decide)⟩

/-- Helper for C10: folding the maximal-multiplicity step from a `some`
accumulator yields an element of the accumulator-or-list whose multiplicity
dominates the accumulator's and every processed element's. -/
theorem fmcStep_foldl_max (l : List String) :
    ∀ (us : List String) (b : String),
      ∃ c, us.foldl (fmcStep l) (some b) = some c
        ∧ (c = b ∨ c ∈ us)
        ∧ l.count b ≤ l.count c
        ∧ ∀ u ∈ us, l.count u ≤ l.count c := by
  intro us
  induction us with
  | nil => exact fun b => ⟨b, rfl, Or.inl rfl, Nat.le_refl _, by simp⟩
  | cons u us ih =>
    intro b
    by_cases hc : l.count b < l.count u
    · obtain ⟨c, h1, h2, h3, h4⟩ := ih u
      refine ⟨c, ?_, ?_, Nat.le_trans (Nat.le_of_lt hc) h3, ?_⟩
      · simpa [fmcStep, hc] using h1
      · rcases h2 with h2 | h2
        · exact Or.inr (h2 ▸ List.mem_cons_self u us)
        · exact Or.inr (List.mem_cons_of_mem u h2)
      · intro v hv
        rcases List.mem_cons.mp hv with hv | hv
        · exact hv ▸ h3
        · exact h4 v hv
    · obtain ⟨c, h1, h2, h3, h4⟩ := ih b
      refine ⟨c, ?_, ?_, h3, ?_⟩
      · simpa [fmcStep, hc] using h1
      · rcases h2 with h2 | h2
        · exact Or.inl h2
        · exact Or.inr (List.mem_cons_of_mem u h2)
      · intro v hv
        rcases List.mem_cons.mp hv with hv | hv
        · exact hv ▸ Nat.le_trans (Nat.le_of_not_lt hc) h3
        · exact h4 v hv

/-- Helper for C10: `first_most_common` on a non-empty list returns an
element of maximal multiplicity; on the empty list it returns `none`. -/
theorem first_most_common_spec (l : List String) :
    (first_most_common l = none ↔ l = [])
    ∧ ∀ t, first_most_common l = some t →
        t ∈ l ∧ ∀ u ∈ l, l.count u ≤ l.count t := by
  cases l with
  | nil => exact ⟨by simp [first_most_common], fun t ht => by simp [first_most_common] at ht⟩
  | cons x xs =>
    obtain ⟨c, h1, h2, h3, h4⟩ := fmcStep_foldl_max (x :: xs) xs x
    have hfold : first_most_common (x :: xs) = some c := by
      show (x :: xs).foldl (fmcStep (x :: xs)) none = some c
      rw [List.foldl_cons]
      exact h1
    constructor
    · rw [hfold]
      simp
    · intro t ht
      rw [hfold] at ht
      obtain rfl : c = t := Option.some.inj ht
      constructor
      · rcases h2 with h2 | h2
        · exact h2 ▸ List.mem_cons_self x xs
        · exact List.mem_cons_of_mem x h2
      · intro u hu
        rcases List.mem_cons.mp hu with hu | hu
        · exact hu ▸ h3
        · exact h4 u hu

/-- Helper for C10: for a non-empty type string `u`, the multiplicity of `u`
among the truthy answer types equals the number of gold answers typed `u`. -/
theorem answer_type_list_count (gold : List Answer) (u : String) (hu : u ≠ "") :
    (answer_type_list gold).count u =
      gold.countP (fun a => a.answer_type = some u) := by
  induction gold with
  | nil => rfl
  | cons a as ih =>
    rw [List.countP_cons]
    unfold answer_type_list at *
    rw [List.filterMap_cons]
    cases hat : a.answer_type with
    | none => simp [hat, ih]
    | some s =>
      by_cases hs : s = ""
      · subst hs
        have : u ≠ "" := hu
        simp [hat, ih, Ne.symm this]
      · simp only [hat, hs, if_false, ite_false]
        rw [List.count_cons, ih]
        by_cases hsu : s = u
        · subst hsu
          simp
        · simp [hsu, Option.some_inj]

/-- Helper for C10: membership in the truthy-type list. -/
theorem mem_answer_type_list (gold : List Answer) (t : String) :
    t ∈ answer_type_list gold ↔
      t ≠ "" ∧ ∃ a ∈ gold, a.answer_type = some t := by
  unfold answer_type_list
  rw [List.mem_filterMap]
  constructor
  · rintro ⟨a, ha, hf⟩
    cases hat : a.answer_type with
    | none => rw [hat] at hf; exact absurd hf (by simp)
    | some s =>
      rw [hat] at hf
      by_cases hs : s = ""
      · simp [hs] at hf
      · simp only [hs, ite_false] at hf
        obtain rfl : s = t := Option.some.inj hf
        exact ⟨hs, a, ha, hat⟩
  · rintro ⟨ht, a, ha, hat⟩
    refine ⟨a, ha, ?_⟩
    rw [hat]
    simp [ht]

/-- C10.  For examples whose answer types come from the classifier (never the
empty string), `get_example_answer_type` returns absent exactly when no gold
answer has a non-absent type, and otherwise returns a type of some gold
answer whose occurrence count among the gold answers is maximal. -/
theorem get_example_answer_type_majority (ex : QAEx)
    (h : ∀ a ∈ ex.gold_answers, a.answer_type ≠ some "") :
    (get_example_answer_type ex = none ↔
      ∀ a ∈ ex.gold_answers, a.answer_type = none)
    ∧ ∀ t, get_example_answer_type ex = some t →
        (∃ a ∈ ex.gold_answers, a.answer_type = some t)
        ∧ ∀ u : String,
            ex.gold_answers.countP (fun a => a.answer_type = some u) ≤
              ex.gold_answers.countP (fun a => a.answer_type = some t) := by
  obtain ⟨hnone, hsome⟩ := first_most_common_spec (answer_type_list ex.gold_answers)
  constructor
  · rw [get_example_answer_type, hnone]
    unfold answer_type_list
    rw [List.filterMap_eq_nil_iff]
    constructor
    · intro hall a ha
      have := hall a ha
      cases hat : a.answer_type with
      | none => rfl
      | some s =>
        rw [hat] at this
        by_cases hs : s = ""
        · exact absurd (hat.trans (by rw [hs])) (h a ha)
        · simp [hs] at this
    · intro hall a ha
      rw [hall a ha]
  · intro t ht
    obtain ⟨hmem, hmax⟩ := hsome t ht
    obtain ⟨htne, hex⟩ := (mem_answer_type_list _ _).mp hmem
    refine ⟨hex, fun u => ?_⟩
    rw [← answer_type_list_count _ _ htne]
    by_cases hu : u = ""
    · have hz : ex.gold_answers.countP (fun a => a.answer_type = some u) = 0 := by
        rw [List.countP_eq_zero]
        intro a ha
        simp only [decide_eq_true_eq]
        rw [hu]
        exact h a ha
      rw [hz]
      exact Nat.zero_le _
    · rw [← answer_type_list_count _ _ hu]
      by_cases humem : u ∈ answer_type_list ex.gold_answers
      · exact hmax u humem
      · rw [List.count_eq_zero.mpr humem]
        exact Nat.zero_le _

/-- Witness for C10: the alias example has one PERSON-typed gold answer, so
the majority type is non-absent. -/
theorem get_example_answer_type_majority_witness :
    get_example_answer_type obamaEx = none ↔
      ∀ a ∈ obamaEx.gold_answers, a.answer_type = none :=
  (get_example_answer_type_majority obamaEx (by decide)).1

/-- Helper for C7: `list_starts_with` tests equality with the corresponding
take. -/
theorem list_starts_with_iff (n : Str) :
    ∀ l : Str, list_starts_with n l = true ↔ l.take n.length = n := by
  induction n with
  | nil => intro l; simp [list_starts_with]
  | cons a n ih =>
    intro l
    cases l with
    | nil => simp [list_starts_with]
    | cons b l =>
      by_cases hab : a = b
      · subst hab
        simp [list_starts_with, ih]
      · simp [list_starts_with, hab, Ne.symm hab]

/-- Helper for C7: every span reported by the scanner starts after the
pending skip, ends `needle.length` after its start, stays inside the text,
and marks a real occurrence of the needle. -/
theorem scanAux_sound (n : Str) : ∀ (l : Str) (sk pos : Nat) (se : Nat × Nat),
    se ∈ scanAux n sk l pos →
    pos + sk ≤ se.1 ∧ se.1 ≤ pos + l.length ∧ se.2 = se.1 + n.length ∧
      (l.drop (se.1 - pos)).take n.length = n := by
  intro l
  induction l with
  | nil =>
    intro sk pos se hse
    cases sk with
    | zero =>
      by_cases hn : n = []
      · subst hn
        simp only [scanAux, if_pos rfl] at hse
        obtain rfl : se = (pos, pos) := by simpa using hse
        simp
      · simp [scanAux, hn] at hse
    | succ k => simp [scanAux] at hse
  | cons c rest ih =>
    intro sk pos se hse
    cases sk with
    | succ k =>
      simp only [scanAux] at hse
      obtain ⟨h1, h2, h3, h4⟩ := ih k (pos + 1) se hse
      refine ⟨by omega, by simp only [List.length_cons]; omega, h3, ?_⟩
      have hq : se.1 - pos = (se.1 - (pos + 1)) + 1 := by omega
      rw [hq, List.drop_succ_cons]
      exact h4
    | zero =>
      by_cases hn : n = []
      · subst hn
        simp only [scanAux, if_pos rfl] at hse
        rcases List.mem_cons.mp hse with h | h
        · subst h
          simp
        · obtain ⟨h1, h2, h3, h4⟩ := ih 0 (pos + 1) se h
          refine ⟨by omega, by simp only [List.length_cons]; omega, by simpa using h3, by simp⟩
      · have hlen : 1 ≤ n.length := List.length_pos.mpr hn
        by_cases hsw : list_starts_with n (c :: rest) = true
        · simp only [scanAux, if_neg hn, if_pos hsw] at hse
          rcases List.mem_cons.mp hse with h | h
          · subst h
            refine ⟨by omega, by simp only [List.length_cons]; omega, rfl, ?_⟩
            simpa using (list_starts_with_iff n (c :: rest)).mp hsw
          · obtain ⟨h1, h2, h3, h4⟩ := ih (n.length - 1) (pos + 1) se h
            refine ⟨by omega, by simp only [List.length_cons]; omega, h3, ?_⟩
            have hq : se.1 - pos = (se.1 - (pos + 1)) + 1 := by omega
            rw [hq, List.drop_succ_cons]
            exact h4
        · simp only [scanAux, if_neg hn, if_neg hsw] at hse
          obtain ⟨h1, h2, h3, h4⟩ := ih 0 (pos + 1) se hse
          refine ⟨by omega, by simp only [List.length_cons]; omega, h3, ?_⟩
          have hq : se.1 - pos = (se.1 - (pos + 1)) + 1 := by omega
          rw [hq, List.drop_succ_cons]
          exact h4

/-- Helper for C7: the spans reported by the scanner are non-overlapping and
ordered left to right. -/
theorem scanAux_pairwise (n : Str) : ∀ (l : Str) (sk pos : Nat),
    List.Pairwise (fun a b => a.2 ≤ b.1 ∧ a.1 < b.1) (scanAux n sk l pos) := by
  intro l
  induction l with
  | nil =>
    intro sk pos
    cases sk with
    | zero =>
      by_cases hn : n = []
      · subst hn
        simp [scanAux]
      · simp [scanAux, hn]
    | succ k => simp [scanAux]
  | cons c rest ih =>
    intro sk pos
    cases sk with
    | succ k =>
      simp only [scanAux]
      exact ih k (pos + 1)
    | zero =>
      by_cases hn : n = []
      · subst hn
        simp only [scanAux, if_pos rfl]
        refine List.Pairwise.cons ?_ (ih 0 (pos + 1))
        intro b hb
        obtain ⟨h1, -, -, -⟩ := scanAux_sound [] rest 0 (pos + 1) b hb
        exact ⟨by omega, by omega⟩
      · have hlen : 1 ≤ n.length := List.length_pos.mpr hn
        by_cases hsw : list_starts_with n (c :: rest) = true
        · simp only [scanAux, if_neg hn, if_pos hsw]
          refine List.Pairwise.cons ?_ (ih (n.length - 1) (pos + 1))
          intro b hb
          obtain ⟨h1, -, -, -⟩ := scanAux_sound n rest (n.length - 1) (pos + 1) b hb
          exact ⟨by omega, by omega⟩
        · simp only [scanAux, if_neg hn, if_neg hsw]
          exact ih 0 (pos + 1)

/-- Helper for C7: every occurrence of the needle at a position past the
pending skip is covered by some reported span. -/
theorem scanAux_complete (n : Str) : ∀ (l : Str) (sk pos k : Nat),
    sk ≤ k → k ≤ l.length → (l.drop k).take n.length = n →
    ∃ se ∈ scanAux n sk l pos, se.1 ≤ pos + k ∧ pos + k < se.1 + max n.length 1 := by
  intro l
  induction l with
  | nil =>
    intro sk pos k hsk hk hocc
    have hk0 : k = 0 := by simpa using hk
    subst hk0
    have hsk0 : sk = 0 := by omega
    subst hsk0
    have hn : n = [] := by simpa using hocc.symm
    subst hn
    refine ⟨(pos, pos), ?_, Nat.le_refl _, by omega⟩
    simp [scanAux]
  | cons c rest ih =>
    intro sk pos k hsk hk hocc
    have hlenl : k ≤ rest.length + 1 := by simpa using hk
    cases sk with
    | succ j =>
      have hk1 : 1 ≤ k := by omega
      have hshift : (c :: rest).drop k = rest.drop (k - 1) := by
        have hq : k = (k - 1) + 1 := by omega
        rw [hq]
        exact List.drop_succ_cons
      rw [hshift] at hocc
      obtain ⟨se, hmem, ha, hb⟩ := ih j (pos + 1) (k - 1) (by omega) (by omega) hocc
      refine ⟨se, ?_, by omega, by omega⟩
      simpa [scanAux] using hmem
    | zero =>
      by_cases hn : n = []
      · subst hn
        cases k with
        | zero =>
          refine ⟨(pos, pos), ?_, Nat.le_refl _, by omega⟩
          simp [scanAux]
        | succ k =>
          have hshift : (c :: rest).drop (k + 1) = rest.drop k := List.drop_succ_cons
          rw [hshift] at hocc
          obtain ⟨se, hmem, ha, hb⟩ := ih 0 (pos + 1) k (Nat.zero_le _) (by omega) hocc
          refine ⟨se, ?_, by omega, by omega⟩
          simp only [scanAux, if_pos rfl]
          exact List.mem_cons_of_mem _ hmem
      · have hlen : 1 ≤ n.length := List.length_pos.mpr hn
        by_cases hsw : list_starts_with n (c :: rest) = true
        · by_cases hkn : k < n.length
          · refine ⟨(pos, pos + n.length), ?_, by omega, by
              have : max n.length 1 = n.length := by omega
              omega⟩
            simp only [scanAux, if_neg hn, if_pos hsw]
            exact List.mem_cons_self _ _
          · have hk1 : 1 ≤ k := by omega
            have hshift : (c :: rest).drop k = rest.drop (k - 1) := by
              have hq : k = (k - 1) + 1 := by omega
              rw [hq]
              exact List.drop_succ_cons
            rw [hshift] at hocc
            obtain ⟨se, hmem, ha, hb⟩ :=
              ih (n.length - 1) (pos + 1) (k - 1) (by omega) (by omega) hocc
            refine ⟨se, ?_, by omega, by omega⟩
            simp only [scanAux, if_neg hn, if_pos hsw]
            exact List.mem_cons_of_mem _ hmem
        · have hk0 : k ≠ 0 := by
            intro h0
            subst h0
            exact hsw ((list_starts_with_iff n (c :: rest)).mpr (by simpa using hocc))
          have hshift : (c :: rest).drop k = rest.drop (k - 1) := by
            have hq : k = (k - 1) + 1 := by omega
            rw [hq]
            exact List.drop_succ_cons
          rw [hshift] at hocc
          obtain ⟨se, hmem, ha, hb⟩ := ih 0 (pos + 1) (k - 1) (Nat.zero_le _) (by omega) hocc
          refine ⟨se, ?_, by omega, by omega⟩
          simp only [scanAux, if_neg hn, if_neg hsw]
          exact hmem

/-- C7.  The span finder returns exactly the left-to-right, non-overlapping,
case-insensitive literal occurrences of the needle: every reported span has
the needle's length and marks a case-insensitive occurrence, the spans are
ordered and disjoint, the result is empty exactly when the needle does not
occur, every occurrence is covered by a reported span, the function is
deterministic, and `locate("Paris", "visited paris")` returns `[(8, 13)]`. -/
theorem find_answer_in_context_spec (needle haystack : Str) :
    (∀ se ∈ find_answer_in_context needle haystack,
        se.2 = se.1 + needle.length ∧ occursCI needle haystack se.1)
    ∧ List.Pairwise (fun a b => a.2 ≤ b.1 ∧ a.1 < b.1)
        (find_answer_in_context needle haystack)
    ∧ (find_answer_in_context needle haystack = [] ↔
        ¬ ∃ p, occursCI needle haystack p)
    ∧ (∀ p, occursCI needle haystack p →
        ∃ se ∈ find_answer_in_context needle haystack,
          se.1 ≤ p ∧ p < se.1 + max needle.length 1)
    ∧ find_answer_in_context needle haystack = find_answer_in_context needle haystack
    ∧ find_answer_in_context ("Paris".toList) ("visited paris".toList) = [(8, 13)] := by
  have hlenh : (lowerStr haystack).length = haystack.length := List.length_map _ _
  have hlenn : (lowerStr needle).length = needle.length := List.length_map _ _
  have hsound : ∀ se ∈ find_answer_in_context needle haystack,
      se.2 = se.1 + needle.length ∧ occursCI needle haystack se.1 := by
    intro se hse
    obtain ⟨-, h2, h3, h4⟩ :=
      scanAux_sound (lowerStr needle) (lowerStr haystack) 0 0 se hse
    refine ⟨by rw [h3, hlenn], by omega, ?_⟩
    rw [← hlenn]
    simpa using h4
  have hcomplete : ∀ p, occursCI needle haystack p →
      ∃ se ∈ find_answer_in_context needle haystack,
        se.1 ≤ p ∧ p < se.1 + max needle.length 1 := by
    rintro p ⟨hple, htake⟩
    rw [← hlenn] at htake
    obtain ⟨se, hmem, ha, hb⟩ :=
      scanAux_complete (lowerStr needle) (lowerStr haystack) 0 0 p (Nat.zero_le _)
        (by omega) htake
    refine ⟨se, hmem, by omega, by rw [← hlenn]; omega⟩
  refine ⟨hsound, scanAux_pairwise _ _ 0 0, ⟨?_, ?_⟩, hcomplete, rfl, rfl⟩
  · intro hemp
    rintro ⟨p, hp⟩
    obtain ⟨se, hmem, -, -⟩ := hcomplete p hp
    rw [hemp] at hmem
    exact absurd hmem (List.not_mem_nil se)
  · intro hnone
    cases hfind : find_answer_in_context needle haystack with
    | nil => rfl
    | cons se rest =>
      exfalso
      have hse : se ∈ find_answer_in_context needle haystack := by
        rw [hfind]
        exact List.mem_cons_self _ _
      obtain ⟨-, hocc⟩ := hsound se hse
      exact hnone ⟨se.1, hocc⟩

/-- Witness for C7: the occurrence of Paris at offset 8 is covered by the
reported span. -/
theorem find_answer_in_context_spec_witness :
    ∃ se ∈ find_answer_in_context ("Paris".toList) ("visited paris".toList),
      se.1 ≤ 8 ∧ 8 < se.1 + max ("Paris".toList).length 1 :=
  (find_answer_in_context_spec ("Paris".toList) ("visited paris".toList)).2.2.2.1 8
    (by decide)

/-- Helper for C8: chunking with sufficient fuel concatenates back to the
original list. -/
theorem chunkAux_flatten {α : Type} (s : Nat) (hs : 1 ≤ s) :
    ∀ (fuel : Nat) (l : List α), l.length ≤ fuel →
      (chunkAux s fuel l).flatten = l := by
  intro fuel
  induction fuel with
  | zero =>
    intro l hl
    have : l = [] := List.length_eq_zero.mp (Nat.le_zero.mp hl)
    subst this
    rfl
  | succ fuel ih =>
    intro l hl
    cases l with
    | nil => rfl
    | cons c rest =>
      show (List.take s (c :: rest) :: chunkAux s fuel (List.drop s (c :: rest))).flatten
        = c :: rest
      have hd : (List.drop s (c :: rest)).length ≤ fuel := by
        simp only [List.length_drop, List.length_cons]
        simp only [List.length_cons] at hl
        omega
      rw [List.flatten_cons, ih (List.drop s (c :: rest)) hd, List.take_append_drop]

/-- Helper for C8: with sufficient fuel, the number of chunks of size `s` of
a list of length at most `s * b` is at most `b`. -/
theorem chunkAux_length_le {α : Type} (s : Nat) (hs : 1 ≤ s) :
    ∀ (fuel : Nat) (l : List α) (b : Nat), l.length ≤ fuel →
      l.length ≤ s * b → (chunkAux s fuel l).length ≤ b := by
  intro fuel
  induction fuel with
  | zero =>
    intro l b hl _
    have : l = [] := List.length_eq_zero.mp (Nat.le_zero.mp hl)
    subst this
    simp [chunkAux]
  | succ fuel ih =>
    intro l b hl hsb
    cases l with
    | nil => simp [chunkAux]
    | cons c rest =>
      cases b with
      | zero => simp at hsb
      | succ b =>
        show (List.take s (c :: rest) :: chunkAux s fuel (List.drop s (c :: rest))).length
          ≤ b + 1
        rw [List.length_cons]
        simp only [List.length_cons] at hl hsb
        have h1 : s * (b + 1) = s * b + s := by ring
        have hrec := ih (List.drop s (c :: rest)) b
          (by simp only [List.length_drop, List.length_cons]; omega)
          (by simp only [List.length_drop, List.length_cons]; omega)
        omega

/-- Helper for C8: every chunk is non-empty of size at most `s`, and every
chunk except possibly the last has size exactly `s`. -/
theorem chunkAux_sizes {α : Type} (s : Nat) (hs : 1 ≤ s) :
    ∀ (fuel : Nat) (l : List α), l.length ≤ fuel →
      (∀ c ∈ chunkAux s fuel l, c ≠ [] ∧ c.length ≤ s)
      ∧ (∀ c ∈ (chunkAux s fuel l).dropLast, c.length = s) := by
  intro fuel
  induction fuel with
  | zero =>
    intro l hl
    have : l = [] := List.length_eq_zero.mp (Nat.le_zero.mp hl)
    subst this
    exact ⟨by simp [chunkAux], by simp [chunkAux]⟩
  | succ fuel ih =>
    intro l hl
    cases l with
    | nil => exact ⟨by simp [chunkAux], by simp [chunkAux]⟩
    | cons x rest =>
      have hchunk : chunkAux s (fuel + 1) (x :: rest) =
          List.take s (x :: rest) :: chunkAux s fuel (List.drop s (x :: rest)) := rfl
      obtain ⟨ihall, ihlast⟩ := ih (List.drop s (x :: rest))
        (by
          simp only [List.length_drop, List.length_cons]
          simp only [List.length_cons] at hl
          omega)
      constructor
      · intro c hc
        rw [hchunk] at hc
        rcases List.mem_cons.mp hc with hc | hc
        · subst hc
          obtain ⟨t, rfl⟩ : ∃ t, s = t + 1 := ⟨s - 1, by omega⟩
          exact ⟨by simp [List.take_succ_cons], List.length_take_le _ _⟩
        · exact ihall c hc
      · intro c hc
        rw [hchunk] at hc
        cases hrec : chunkAux s fuel (List.drop s (x :: rest)) with
        | nil =>
          rw [hrec] at hc
          simp at hc
        | cons y ys =>
          rw [hrec, List.dropLast_cons₂] at hc
          rcases List.mem_cons.mp hc with hc | hc
          · subst hc
            have hne : List.drop s (x :: rest) ≠ [] := by
              intro hd
              rw [hd] at hrec
              cases fuel <;> simp [chunkAux] at hrec
            have hlen : s < (x :: rest).length := by
              by_contra hle
              exact hne (List.drop_eq_nil_iff.mpr (by omega))
            rw [List.length_take]
            exact inf_eq_left.mpr (by omega)
          · rw [← hrec] at hc
            exact ihlast c hc

/-- Helper for C8: the per-popularity cap keeps a sublist of its input. -/
theorem cap_per_pop_sublist (m : Nat) :
    ∀ (l : List (String × EntityInfo)) (seen : Nat → Nat),
      (cap_per_pop m seen l).Sublist l := by
  intro l
  induction l with
  | nil => intro seen; exact List.Sublist.refl _
  | cons kv rest ih =>
    intro seen
    by_cases hm : m ≤ seen kv.2.popularity
    · simp only [cap_per_pop, if_pos hm]
      exact (ih _).cons _
    · simp only [cap_per_pop, if_neg hm]
      exact (ih _).cons₂ _

/-- C8 (amended).  For `num_bins ≥ 1` and a store with distinct keys, the
binner sorts the surviving entities ascending by popularity and cuts them
into contiguous chunks of size `count / num_bins + 1` with only the final
chunk possibly shorter; the bins are pairwise disjoint, non-empty, their
sizes sum to the surviving count, they are at most `num_bins` many (possibly
fewer), and they are ordered from least to most popular. -/
theorem bin_wikidata_entities_by_popularity_amended
    (store : List (String × EntityInfo)) (num_bins max_ents_per_pop : Nat)
    (hb : 1 ≤ num_bins) (hnd : (store.map Prod.fst).Nodup) :
    ((bin_wikidata_entities_by_popularity store num_bins max_ents_per_pop).flatten).Perm
        (surviving_entities store max_ents_per_pop)
    ∧ ((bin_wikidata_entities_by_popularity store num_bins max_ents_per_pop).map
        List.length).sum = (surviving_entities store max_ents_per_pop).length
    ∧ (bin_wikidata_entities_by_popularity store num_bins max_ents_per_pop).length ≤
        num_bins
    ∧ (∀ c ∈ bin_wikidata_entities_by_popularity store num_bins max_ents_per_pop,
        c ≠ [] ∧
          c.length ≤ (surviving_entities store max_ents_per_pop).length / num_bins + 1)
    ∧ (∀ c ∈ (bin_wikidata_entities_by_popularity store num_bins
          max_ents_per_pop).dropLast,
        c.length = (surviving_entities store max_ents_per_pop).length / num_bins + 1)
    ∧ List.Pairwise List.Disjoint
        (bin_wikidata_entities_by_popularity store num_bins max_ents_per_pop)
    ∧ List.Pairwise (fun b1 b2 => ∀ x ∈ b1, ∀ y ∈ b2,
          x.2.popularity ≤ y.2.popularity)
        (bin_wikidata_entities_by_popularity store num_bins max_ents_per_pop)
    ∧ ∀ c ∈ bin_wikidata_entities_by_popularity store num_bins max_ents_per_pop,
        List.Pairwise (fun x y => x.2.popularity ≤ y.2.popularity) c := by
  have hperm : (List.insertionSort popLe (surviving_entities store max_ents_per_pop)).Perm
      (surviving_entities store max_ents_per_pop) :=
    List.perm_insertionSort popLe _
  set survivors := surviving_entities store max_ents_per_pop with hsurv
  set L := List.insertionSort popLe survivors with hLdef
  have hLlen : L.length = survivors.length := hperm.length_eq
  set s := L.length / num_bins + 1 with hs
  have hs1 : 1 ≤ s := Nat.le_add_left 1 _
  have hbins : bin_wikidata_entities_by_popularity store num_bins max_ents_per_pop =
      chunkAux s L.length L := rfl
  have hflat : (chunkAux s L.length L).flatten = L :=
    chunkAux_flatten s hs1 L.length L (Nat.le_refl _)
  have hseq : s = survivors.length / num_bins + 1 := by rw [hs, hLlen]
  obtain ⟨hall, hlast⟩ := chunkAux_sizes s hs1 L.length L (Nat.le_refl _)
  have hsorted : List.Pairwise popLe L := List.sorted_insertionSort popLe survivors
  have hpw : List.Pairwise popLe (chunkAux s L.length L).flatten := by
    rw [hflat]
    exact hsorted
  obtain ⟨hin, hbetween⟩ := List.pairwise_flatten.mp hpw
  refine ⟨?_, ?_, ?_, ?_, ?_, ?_, ?_, ?_⟩
  · rw [hbins, hflat]
    exact hperm
  · rw [hbins, ← List.length_flatten, hflat, hLlen]
  · rw [hbins]
    refine chunkAux_length_le s hs1 L.length L num_bins (Nat.le_refl _) ?_
    have h1 := Nat.div_add_mod L.length num_bins
    have h2 := Nat.mod_lt L.length hb
    have h3 : s * num_bins = num_bins * (L.length / num_bins) + num_bins := by
      rw [hs]
      ring
    omega
  · intro c hc
    rw [hbins] at hc
    exact ⟨(hall c hc).1, hseq ▸ (hall c hc).2⟩
  · intro c hc
    rw [hbins] at hc
    exact hseq ▸ hlast c hc
  · have hstore_nd : store.Nodup := List.Nodup.of_map _ hnd
    have hsub : survivors.Sublist store := by
      rw [hsurv]
      exact (cap_per_pop_sublist _ _ _).trans (List.filter_sublist store)
    have hsnd : survivors.Nodup := hsub.nodup hstore_nd
    have hLnd : L.Nodup := hperm.symm.nodup hsnd
    have hfnd : (chunkAux s L.length L).flatten.Nodup := by
      rw [hflat]
      exact hLnd
    rw [hbins]
    exact (List.nodup_flatten.mp hfnd).2
  · rw [hbins]
    exact hbetween
  · intro c hc
    rw [hbins] at hc
    exact hin c hc

/-- Witness for C8 (amended): the four-entity store with four requested bins
satisfies the amended bound. -/
theorem bin_wikidata_entities_by_popularity_amended_witness :
    (bin_wikidata_entities_by_popularity store4 4 10).length ≤ 4 :=
  (bin_wikidata_entities_by_popularity_amended store4 4 10 (by decide)
    (by decide)).2.2.1
